import Mathlib

/-!
Verification of the circuit-aggregation core of `app/services/circuit_aggregation.py`.

Shallow embedding conventions:
* Python floats are modelled as exact rationals (`ℚ`); Python's `round(x, n)`
  is modelled as round-half-to-even on rationals (`roundTo`).
* Python dictionaries keyed by strings/ints are modelled as total functions
  with an explicit "absent" default (`[]` for observation lists, `none` for
  cache/stored entries), matching the reachable states of the service.
* `datetime` timestamps are omitted: the source uses them only for
  provenance/debugging, never for resolution behaviour.
-/

namespace CircuitAgg

/-! ### Definitions: the shallow embedding of the aggregation core -/

/-- The `ExtractionMethod` enum from the source. -/
inductive Method
  | text_ocr
  | ai_vision
  | manual
  | ai_ocr_fallback
deriving DecidableEq, Repr

/-- The `METHOD_CONFIDENCE_WEIGHTS` dict covers every enum member, so the
`.get(method, 0.5)` default in the source is unreachable and the map is total. -/
def methodWeight : Method → ℚ
  | .manual => 7/10
  | .ai_vision => 17/20
  | .ai_ocr_fallback => 7/10
  | .text_ocr => 3/5

/-- Python's `round` rounds half-to-even; integer result of rounding `q` to an
integer. -/
def roundHalfEven (q : ℚ) : ℤ :=
  if q - ⌊q⌋ < 1/2 then ⌊q⌋
  else if q - ⌊q⌋ = 1/2 then (if ⌊q⌋ % 2 = 0 then ⌊q⌋ else ⌊q⌋ + 1)
  else ⌊q⌋ + 1

/-- Python `round(q, k)`, on exact rationals. -/
def roundTo (k : ℕ) (q : ℚ) : ℚ := (roundHalfEven (q * 10 ^ k) : ℚ) / 10 ^ k

/-- Python `round(q, 3)`. -/
def round3 (q : ℚ) : ℚ := roundTo 3 q

/-- Python `round(q, 2)`. -/
def round2 (q : ℚ) : ℚ := roundTo 2 q

/-- One element of the `observations` list handed to `_resolve_field`:
a `(value, confidence, source_id, method)` tuple. -/
structure FieldObs (α : Type) where
  value : α
  conf : ℚ
  source_id : String
  method : Method
deriving DecidableEq, Repr

/-- The effective confidence `min(conf, weight)` used inside `_resolve_field`. -/
def effConf {α : Type} (o : FieldObs α) : ℚ := min o.conf (methodWeight o.method)

/-- Insert an observation into the ordered group list keyed by normalized value,
mirroring the insertion-ordered Python dict `value_groups`. -/
def addToGroups {α : Type} [DecidableEq α] :
    List (α × List (FieldObs α)) → α → FieldObs α → List (α × List (FieldObs α))
  | [], k, o => [(k, [o])]
  | (k', os) :: rest, k, o =>
    if k' = k then (k', os ++ [o]) :: rest else (k', os) :: addToGroups rest k o

/-- The `value_groups` dict of `_resolve_field`, as an insertion-ordered
association list keyed by normalized value. -/
def valueGroups {α : Type} [DecidableEq α] (norm : α → α) (obs : List (FieldObs α)) :
    List (α × List (FieldObs α)) :=
  obs.foldl (fun gs o => addToGroups gs (norm o.value) o) []

/-- The product `product *= (1 - effective_conf)` accumulated over a group, starting at 1. -/
def groupProduct {α : Type} (os : List (FieldObs α)) : ℚ :=
  os.foldl (fun p o => p * (1 - effConf o)) 1

/-- The deduplicated, order-preserving `sources` list accumulated over a group. -/
def groupSources {α : Type} (os : List (FieldObs α)) : List String :=
  os.foldl (fun acc o => if o.source_id ∈ acc then acc else acc ++ [o.source_id]) []

/-- One entry of the `value_confidences` list: `(original_value, combined_conf, sources)`. -/
structure GroupConf (α : Type) where
  value : α
  conf : ℚ
  sources : List String
deriving DecidableEq, Repr

/-- Fuse one value group: representative value from the first member,
`combined_conf = min(0.98, 1 - product)`, deduplicated sources. -/
def fuseGroup {α : Type} (g : α × List (FieldObs α)) : GroupConf α :=
  { value := match g.2 with | o :: _ => o.value | [] => g.1
  , conf := min (98/100) (1 - groupProduct g.2)
  , sources := groupSources g.2 }

/-- Stable descending insertion (later elements go after equal-confidence
earlier ones), matching Python's stable `sort(key=..., reverse=True)`. -/
def insertDesc {α : Type} (x : GroupConf α) : List (GroupConf α) → List (GroupConf α)
  | [] => [x]
  | y :: ys => if x.conf ≤ y.conf then y :: insertDesc x ys else x :: y :: ys

/-- Stable sort of the fused groups by confidence, highest first. -/
def sortDesc {α : Type} (l : List (GroupConf α)) : List (GroupConf α) :=
  l.foldl (fun acc g => insertDesc g acc) []

/-- The sorted `value_confidences` list computed by `_resolve_field`. -/
def sortedGroups {α : Type} [DecidableEq α] (norm : α → α) (obs : List (FieldObs α)) :
    List (GroupConf α) :=
  sortDesc ((valueGroups norm obs).map fuseGroup)

/-- The `ResolvedField` dataclass. -/
structure ResolvedField (α : Type) where
  value : Option α
  confidence : ℚ
  sources : List String
  has_conflict : Bool
  competing_values : List (α × ℚ)
deriving DecidableEq, Repr

/-- The constant `CircuitAggregationService.CONFLICT_THRESHOLD`. -/
def CONFLICT_THRESHOLD : ℚ := 3/10

/-- The resolver `CircuitAggregationService._resolve_field`.  The `[]` branch is exactly the
source's early return for an empty observation list (for nonempty input the
sorted group list is never empty). -/
def resolveField {α : Type} [DecidableEq α] (norm : α → α) (obs : List (FieldObs α)) :
    ResolvedField α :=
  match sortedGroups norm obs with
  | [] => { value := none, confidence := 0, sources := [], has_conflict := false
          , competing_values := [] }
  | best :: rest =>
    { value := some best.value
    , confidence := round3 best.conf
    , sources := best.sources
    , has_conflict := rest.any fun g =>
        decide (CONFLICT_THRESHOLD ≤ g.conf ∧ best.conf * (1/2) ≤ g.conf)
    , competing_values :=
        (rest.filter fun g => decide (CONFLICT_THRESHOLD ≤ g.conf)).map
          fun g => (g.value, round2 g.conf) }

/-- Confidence of the first group of a (sorted) group list; 0 for the empty
list, matching the resolver output on an empty observation list. -/
def headConf {α : Type} : List (GroupConf α) → ℚ
  | [] => 0
  | g :: _ => g.conf

/-- Maximum fused confidence over a group list (0 when empty). -/
def maxConf {α : Type} : List (GroupConf α) → ℚ
  | [] => 0
  | g :: gs => gs.foldl (fun m x => max m x.conf) g.conf

/-- The winning group's fused confidence before the 3-decimal rounding
(`best_conf` in the source, 0 for an empty observation list). -/
def bestFusedConf {α : Type} [DecidableEq α] (norm : α → α) (obs : List (FieldObs α)) : ℚ :=
  headConf (sortedGroups norm obs)

/-- The `CircuitObservation` dataclass.  The `timestamp` field is omitted: the
source uses it only for provenance/debugging, never for resolution. -/
structure CircuitObservation where
  circuit_num : ℤ
  source_id : String
  method : Method
  description : Option String
  description_confidence : ℚ
  breaker_amps : Option ℤ
  amps_confidence : ℚ
  poles : Option ℤ
  poles_confidence : ℚ
  load_amps : Option ℚ
  load_confidence : ℚ
  load_type : Option String
  load_type_confidence : ℚ
deriving DecidableEq, Repr

/-- String normalization used by `_resolve_field`: Python
`value.strip().lower()`. -/
def normalizeStr (s : String) : String := s.trim.toLower

/-- The `ResolvedCircuit` dataclass. -/
structure ResolvedCircuit where
  circuit_num : ℤ
  description : ResolvedField String
  breaker_amps : ResolvedField ℤ
  poles : ResolvedField ℤ
  load_amps : ResolvedField ℚ
  load_type : ResolvedField String
  observations_count : ℕ
  needs_review : Bool
deriving DecidableEq, Repr

/-- The field-selection and resolution logic of `get_resolved_circuit` (the
part independent of storage/cache).  Matches the source: `description` and
`load_type` contribute only when truthy (non-None and non-empty), the numeric
fields whenever not None; `needs_review` is `any` over the conflict flags of
description, breaker_amps, poles and load_type — the source omits `load_amps`
from that list. -/
def resolveCircuit (circuit_num : ℤ) (observations : List CircuitObservation) :
    ResolvedCircuit :=
  let description := resolveField normalizeStr (observations.filterMap fun ob =>
    match ob.description with
    | some d => if d = "" then none
        else some ⟨d, ob.description_confidence, ob.source_id, ob.method⟩
    | none => none)
  let breaker_amps := resolveField id (observations.filterMap fun ob =>
    ob.breaker_amps.map fun a => (⟨a, ob.amps_confidence, ob.source_id, ob.method⟩ : FieldObs ℤ))
  let poles := resolveField id (observations.filterMap fun ob =>
    ob.poles.map fun p => (⟨p, ob.poles_confidence, ob.source_id, ob.method⟩ : FieldObs ℤ))
  let load_amps := resolveField id (observations.filterMap fun ob =>
    ob.load_amps.map fun a => (⟨a, ob.load_confidence, ob.source_id, ob.method⟩ : FieldObs ℚ))
  let load_type := resolveField normalizeStr (observations.filterMap fun ob =>
    match ob.load_type with
    | some d => if d = "" then none
        else some ⟨d, ob.load_type_confidence, ob.source_id, ob.method⟩
    | none => none)
  { circuit_num := circuit_num
  , description := description
  , breaker_amps := breaker_amps
  , poles := poles
  , load_amps := load_amps
  , load_type := load_type
  , observations_count := observations.length
  , needs_review := description.has_conflict || breaker_amps.has_conflict
      || poles.has_conflict || load_type.has_conflict }

/-- Mutable state of `CircuitAggregationService`: `_observations` and
`_resolved_cache`, modelled as total functions (an absent dict key is the
empty list / `none`; `add_observation` always appends, so a key is present
in the Python dict exactly when the list here is nonempty). -/
structure AggState where
  obs : String → ℤ → List CircuitObservation
  cache : String → ℤ → Option ResolvedCircuit

/-- The freshly constructed service (`__init__`). -/
def emptyAggState : AggState := ⟨fun _ _ => [], fun _ _ => none⟩

/-- Method `CircuitAggregationService.add_observation`: append the observation for
`(task_id, circuit_num)` and invalidate exactly that cache entry.  The source
performs no validation of `circuit_num`. -/
def addObservation (s : AggState) (task_id : String) (circuit_num : ℤ)
    (source_id : String) (method : Method)
    (description : Option String) (description_confidence : ℚ)
    (breaker_amps : Option ℤ) (amps_confidence : ℚ)
    (poles : Option ℤ) (poles_confidence : ℚ)
    (load_amps : Option ℚ) (load_confidence : ℚ)
    (load_type : Option String) (load_type_confidence : ℚ) : AggState :=
  let observation : CircuitObservation :=
    ⟨circuit_num, source_id, method, description, description_confidence,
      breaker_amps, amps_confidence, poles, poles_confidence,
      load_amps, load_confidence, load_type, load_type_confidence⟩
  { obs := fun t c =>
      if t = task_id ∧ c = circuit_num then s.obs t c ++ [observation] else s.obs t c
  , cache := fun t c =>
      if t = task_id ∧ c = circuit_num then none else s.cache t c }

/-- Method `CircuitAggregationService.get_resolved_circuit`: `none` for an unknown
task/circuit, the cached entry when present, otherwise resolve from the
stored observations and populate the cache.  Returns the result together
with the (possibly cache-extended) state. -/
def getResolvedCircuit (s : AggState) (task_id : String) (circuit_num : ℤ) :
    Option ResolvedCircuit × AggState :=
  if (s.obs task_id circuit_num).isEmpty then (none, s)
  else
    match s.cache task_id circuit_num with
    | some r => (some r, s)
    | none =>
      let r := resolveCircuit circuit_num (s.obs task_id circuit_num)
      (some r, { s with cache := fun t c =>
          if t = task_id ∧ c = circuit_num then some r else s.cache t c })

/-- Python `x or default` for an optional string field (`None` and `""` are
falsy). -/
def pyOrStr (v : Option String) (d : String) : String :=
  match v with
  | some s => if s = "" then d else s
  | none => d

/-- Python `x or default` for an optional integer field (`None` and `0` are
falsy). -/
def pyOrInt (v : Option ℤ) (d : ℤ) : ℤ :=
  match v with
  | some n => if n = 0 then d else n
  | none => d

/-- Python `x or default` for an optional numeric field (`None` and `0` are
falsy). -/
def pyOrRat (v : Option ℚ) (d : ℚ) : ℚ :=
  match v with
  | some q => if q = 0 then d else q
  | none => d

/-- Python truthiness of an optional string. -/
def truthyStr : Option String → Bool
  | some s => s != ""
  | none => false

/-- Python truthiness of an optional integer. -/
def truthyInt : Option ℤ → Bool
  | some n => n != 0
  | none => false

/-- Method `ResolvedCircuit._overall_confidence`: mean over the confidences of the
truthy-valued fields among description, breaker_amps, poles, load_type
(the source does not consult `load_amps` here); 0 when none qualifies. -/
def overallConfidence (r : ResolvedCircuit) : ℚ :=
  let confidences :=
    (if truthyStr r.description.value then [r.description.confidence] else [])
    ++ (if truthyInt r.breaker_amps.value then [r.breaker_amps.confidence] else [])
    ++ (if truthyInt r.poles.value then [r.poles.confidence] else [])
    ++ (if truthyStr r.load_type.value then [r.load_type.confidence] else [])
  if confidences.length = 0 then 0 else confidences.sum / confidences.length

/-- First-occurrence deduplication.  Python builds `list(set(...))`, whose
order is unspecified; the claims never depend on the order, only on the
deduplicated contents. -/
def dedupFirst (l : List String) : List String :=
  l.foldl (fun acc s => if s ∈ acc then acc else acc ++ [s]) []

/-- The nested `confidence` dictionary of `to_dict`. -/
structure ConfidenceDict where
  description : ℚ
  breaker_amps : ℚ
  poles : ℚ
  load_type : ℚ
  overall : ℚ
deriving DecidableEq, Repr

/-- The dictionary produced by `ResolvedCircuit.to_dict`. -/
structure CircuitDict where
  number : String
  description : String
  breaker_amps : ℤ
  poles : ℤ
  load_amps : ℚ
  load_type : String
  confidence : ConfidenceDict
  sources : List String
  has_conflicts : Bool
  needs_review : Bool
  observations_count : ℕ
deriving DecidableEq, Repr

/-- Method `ResolvedCircuit.to_dict`. -/
def ResolvedCircuit.to_dict (r : ResolvedCircuit) : CircuitDict :=
  { number := toString r.circuit_num
  , description := pyOrStr r.description.value ""
  , breaker_amps := pyOrInt r.breaker_amps.value 0
  , poles := pyOrInt r.poles.value 1
  , load_amps := pyOrRat r.load_amps.value 0
  , load_type := pyOrStr r.load_type.value ""
  , confidence :=
    { description := round2 r.description.confidence
    , breaker_amps := round2 r.breaker_amps.confidence
    , poles := round2 r.poles.confidence
    , load_type := round2 r.load_type.confidence
    , overall := round2 (overallConfidence r) }
  , sources := dedupFirst (r.description.sources ++ r.breaker_amps.sources
      ++ r.poles.sources ++ r.load_type.sources)
  , has_conflicts := r.description.has_conflict || r.breaker_amps.has_conflict
      || r.poles.has_conflict || r.load_type.has_conflict
  , needs_review := r.needs_review
  , observations_count := r.observations_count }

/-- A Python scalar as stored in the parameter store (`value: Any`). -/
inductive PyVal
  | str (s : String)
  | int (n : ℤ)
  | rat (q : ℚ)
  | pynone
deriving DecidableEq, Repr

/-- The emptiness test of `update_parameter`:
`value is None or (isinstance(value, str) and not value.strip())`. -/
def isEmptyValue : PyVal → Bool
  | .pynone => true
  | .str s => s.trim == ""
  | .int _ => false
  | .rat _ => false

/-- The `ParameterValue` dataclass (timestamp again omitted — provenance only). -/
structure ParameterValue where
  value : PyVal
  confidence : ℚ
  method : Method
  source_id : String
deriving DecidableEq, Repr

/-- Method `ParameterValue.effective_confidence`: `min(1.0, confidence * weight)`.
All enum members are in the weights dict, so the 0.5 default is dead. -/
def ParameterValue.effective_confidence (p : ParameterValue) : ℚ :=
  min 1 (p.confidence * methodWeight p.method)

/-- Tags for the four textual reasons `update_parameter` returns.  The source
formats human-readable strings; only the boolean and the stored state are
behaviourally relevant, so the strings are abstracted to their branch. -/
inductive UpdateReason
  | emptyValue
  | newSet
  | updated
  | rejected
deriving DecidableEq, Repr

/-- The dict `PanelParameterStore._store`, as a total function (absent key = `none`). -/
structure ParamState where
  store : String → String → Option ParameterValue

/-- The freshly constructed store (`__init__`). -/
def emptyParamState : ParamState := ⟨fun _ _ => none⟩

/-- Method `PanelParameterStore.update_parameter`. -/
def update_parameter (s : ParamState) (task_id param_name : String) (value : PyVal)
    (confidence : ℚ) (method : Method) (source_id : String) :
    (Bool × UpdateReason) × ParamState :=
  if isEmptyValue value then ((false, .emptyValue), s)
  else
    let new_effective := min 1 (confidence * methodWeight method)
    match s.store task_id param_name with
    | none =>
      ((true, .newSet),
        ⟨fun t p => if t = task_id ∧ p = param_name then
            some ⟨value, confidence, method, source_id⟩ else s.store t p⟩)
    | some existing =>
      if existing.effective_confidence < new_effective then
        ((true, .updated),
          ⟨fun t p => if t = task_id ∧ p = param_name then
              some ⟨value, confidence, method, source_id⟩ else s.store t p⟩)
      else ((false, .rejected), s)

/-- A scalar from an OCR circuit dictionary.  The claims involve string and
integer entries; confidences are modelled as already-numeric (`Option ℚ`)
fields of the entry. -/
inductive OcrVal
  | str (s : String)
  | int (n : ℤ)
deriving DecidableEq, Repr

/-- Digits of a decimal literal accumulated into a natural number. -/
def digitsToNat (cs : List Char) : ℕ :=
  cs.foldl (fun n c => n * 10 + (c.toNat - 48)) 0

/-- Python `int(x)` on an OCR scalar: identity on ints; on strings an
optionally signed decimal numeral with surrounding whitespace allowed,
`none` modelling the `ValueError`. -/
def parseInt (v : OcrVal) : Option ℤ :=
  match v with
  | .int n => some n
  | .str s =>
    let t := ((s.data.dropWhile Char.isWhitespace).reverse.dropWhile
      Char.isWhitespace).reverse
    match t with
    | '-' :: ds =>
      if ds ≠ [] ∧ ds.all Char.isDigit then some (-(digitsToNat ds : ℤ)) else none
    | '+' :: ds =>
      if ds ≠ [] ∧ ds.all Char.isDigit then some (digitsToNat ds : ℤ) else none
    | ds =>
      if ds ≠ [] ∧ ds.all Char.isDigit then some (digitsToNat ds : ℤ) else none

/-- One circuit dictionary handed to `add_observations_from_ocr_result`; a
`none` field is an absent key. -/
structure OcrEntry where
  number : Option OcrVal
  description : Option String
  breaker_amps : Option OcrVal
  breaker_poles : Option OcrVal
  load_type : Option String
  confidence : Option ℚ
  visual_pole_detection : Bool
deriving DecidableEq, Repr

/-- Description coercion of the ingestion loop: the sentinel `"MISSING"`
becomes absent. -/
def coerceDesc (e : OcrEntry) : Option String :=
  if e.description = some "MISSING" then none else e.description

/-- Amps coercion: `"MISSING"` becomes absent, otherwise `int(amps)` with the
`ValueError`/`TypeError` caught and turned into absent. -/
def coerceAmps (e : OcrEntry) : Option ℤ :=
  match e.breaker_amps with
  | none => none
  | some v => if v = .str "MISSING" then none else parseInt v

/-- Poles coercion, same recovery as amps. -/
def coercePoles (e : OcrEntry) : Option ℤ :=
  match e.breaker_poles with
  | none => none
  | some v => if v = .str "MISSING" then none else parseInt v

/-- Load-type coercion: `"MISSING"` becomes absent, otherwise
`upper().strip()` then a whitelist check. -/
def coerceLoadType (e : OcrEntry) : Option String :=
  match e.load_type with
  | none => none
  | some s =>
    if s = "MISSING" then none
    else
      let u := s.toUpper.trim
      if u = "LTG" ∨ u = "RCP" ∨ u = "MTR" ∨ u = "C" ∨ u = "NC" then some u else none

/-- The per-circuit change notification: parts for poles, amps, description
and load_type that are truthy in the new resolution and differ from the
previous resolved value, assembled into the FOUND/UPDATED message; `none`
when nothing changed. -/
def buildNotification (existing : Option ResolvedCircuit) (nr : ResolvedCircuit)
    (circuit_num : ℤ) (detection_method : Method) : Option String :=
  let existing_poles := match existing with | some ex => ex.poles.value | none => none
  let existing_amps := match existing with | some ex => ex.breaker_amps.value | none => none
  let existing_desc := match existing with | some ex => ex.description.value | none => none
  let existing_lt := match existing with | some ex => ex.load_type.value | none => none
  let parts :=
    (match nr.poles.value with
      | some v => if v ≠ 0 ∧ some v ≠ existing_poles then [toString v ++ "-pole"] else []
      | none => [])
    ++ (match nr.breaker_amps.value with
      | some v => if v ≠ 0 ∧ some v ≠ existing_amps then [toString v ++ "A"] else []
      | none => [])
    ++ (match nr.description.value with
      | some d => if d ≠ "" ∧ some d ≠ existing_desc then ["\x27" ++ d ++ "\x27"] else []
      | none => [])
    ++ (match nr.load_type.value with
      | some d => if d ≠ "" ∧ some d ≠ existing_lt then ["type:" ++ d] else []
      | none => [])
  if parts = [] then none
  else
    let head := if existing = none then "BREAKER INFO FOUND - Circuit "
      else "BREAKER INFO UPDATED - Circuit "
    let base := head ++ toString circuit_num ++ ": " ++ String.intercalate ", " parts
    if nr.observations_count > 1 then
      some (base ++ " (combined from " ++ toString nr.observations_count ++ " sources)")
    else if detection_method = Method.ai_vision then some (base ++ " (AI Vision)")
    else some base

/-- The body of the `for circuit in circuits` loop of
`add_observations_from_ocr_result`.  The uncaught `int(circuit.get('number',
0))` is the one failure path (`Except.error`); non-positive numbers and
all-absent entries are skipped. -/
def processOcrEntry (task_id source_id : String) (method : Method)
    (acc : AggState × List String) (e : OcrEntry) :
    Except Unit (AggState × List String) :=
  match parseInt (e.number.getD (.int 0)) with
  | none => .error ()
  | some circuit_num =>
    if circuit_num ≤ 0 then .ok acc
    else
      let desc := coerceDesc e
      let amps := coerceAmps e
      let poles := coercePoles e
      let load_type := coerceLoadType e
      let detection_method := if e.visual_pole_detection then Method.ai_vision else method
      if desc = none ∧ amps = none ∧ poles = none ∧ load_type = none then .ok acc
      else
        let pr := getResolvedCircuit acc.1 task_id circuit_num
        let s2 := addObservation pr.2 task_id circuit_num source_id detection_method
          desc (e.confidence.getD (4/5)) amps (4/5) poles
          (if e.visual_pole_detection then 9/10 else 7/10) none (4/5) load_type (4/5)
        let pr2 := getResolvedCircuit s2 task_id circuit_num
        .ok (pr2.2,
          match pr2.1 with
          | none => acc.2
          | some nr =>
            match buildNotification pr.1 nr circuit_num detection_method with
            | some notification => acc.2 ++ [notification]
            | none => acc.2)

/-- An entry of the `visual_breakers['breakers']` list. -/
structure VisualBreaker where
  circuits : List ℤ
  poles : Option ℤ
  amps : Option ℤ
  description : Option String
  load_type : Option String
deriving DecidableEq, Repr

/-- The `visual_breakers` structure. -/
structure VisualBreakers where
  ai_vision_success : Bool
  breakers : List VisualBreaker
deriving DecidableEq, Repr

/-- Ingest one visual breaker group: one AI-vision observation per listed
circuit number, sharing the group's description/amps/poles/load_type. -/
def addVisualBreaker (task_id source_id : String) (s : AggState)
    (b : VisualBreaker) : AggState :=
  let blt : Option String := match b.load_type with
    | none => none
    | some s0 =>
      if s0 = "" then some s0
      else
        let u := s0.toUpper.trim
        if u = "LTG" ∨ u = "RCP" ∨ u = "MTR" ∨ u = "C" ∨ u = "NC" then some u else none
  let bdesc : Option String := match b.description with
    | none => none
    | some d => if d = "" then none else some d
  b.circuits.foldl (fun st c => addObservation st task_id c source_id .ai_vision
    bdesc (17/20) b.amps (17/20) b.poles (9/10) none (4/5) blt (17/20)) s

/-- The trailing `visual_breakers` phase of `add_observations_from_ocr_result`. -/
def processVisualBreakers (task_id source_id : String) (s : AggState)
    (vb : Option VisualBreakers) : AggState :=
  match vb with
  | none => s
  | some v =>
    if v.ai_vision_success then
      v.breakers.foldl
        (fun st b => if b.circuits = [] then st else addVisualBreaker task_id source_id st b) s
    else s

/-- Method `CircuitAggregationService.add_observations_from_ocr_result`. -/
def addObservationsFromOcrResult (s : AggState) (task_id source_id : String)
    (circuits : List OcrEntry) (method : Method)
    (visual_breakers : Option VisualBreakers) : Except Unit (AggState × List String) :=
  match circuits.foldlM (processOcrEntry task_id source_id method) (s, ([] : List String)) with
  | .error err => .error err
  | .ok (s2, notifications) =>
    .ok (processVisualBreakers task_id source_id s2 visual_breakers, notifications)

/-- Projection of an ingestion result onto the stored observation list of one
circuit (`none` when the batch aborted); lets concrete witnesses avoid
spelling out the whole post-state. -/
def ingestObsAt (r : Except Unit (AggState × List String)) (t : String) (c : ℤ) :
    Option (List CircuitObservation) :=
  match r with
  | .ok (s, _) => some (s.obs t c)
  | .error _ => none

/-! ### Theorems -/

theorem methodWeight_le (m : Method) : methodWeight m ≤ 17/20 := by
  cases m <;> norm_num [methodWeight]

theorem methodWeight_pos (m : Method) : 0 < methodWeight m := by
  cases m <;> norm_num [methodWeight]

theorem roundHalfEven_bounds (q : ℚ) :
    ⌊q⌋ ≤ roundHalfEven q ∧ roundHalfEven q ≤ ⌊q⌋ + 1 := by
  unfold roundHalfEven
  split_ifs <;> omega

theorem roundHalfEven_mono {a b : ℚ} (h : a ≤ b) :
    roundHalfEven a ≤ roundHalfEven b := by
  rcases lt_or_eq_of_le (Int.floor_mono h) with hf | hf
  · calc roundHalfEven a ≤ ⌊a⌋ + 1 := (roundHalfEven_bounds a).2
      _ ≤ ⌊b⌋ := by omega
      _ ≤ roundHalfEven b := (roundHalfEven_bounds b).1
  · have hfc : ((⌊a⌋ : ℤ) : ℚ) = ((⌊b⌋ : ℤ) : ℚ) := by exact_mod_cast hf
    have hb0 := (roundHalfEven_bounds b).1
    by_cases ha1 : a - ⌊a⌋ < 1/2
    · have hA : roundHalfEven a = ⌊a⌋ := by unfold roundHalfEven; rw [if_pos ha1]
      omega
    · by_cases ha2 : a - ⌊a⌋ = 1/2
      · by_cases hae : ⌊a⌋ % 2 = 0
        · have hA : roundHalfEven a = ⌊a⌋ := by
            unfold roundHalfEven; rw [if_neg ha1, if_pos ha2, if_pos hae]
          omega
        · have hA : roundHalfEven a = ⌊a⌋ + 1 := by
            unfold roundHalfEven; rw [if_neg ha1, if_pos ha2, if_neg hae]
          have hb2 : (1:ℚ)/2 ≤ b - ⌊b⌋ := by rw [← hfc]; linarith
          rcases eq_or_lt_of_le hb2 with he | hl
          · have hB : roundHalfEven b = ⌊b⌋ + 1 := by
              unfold roundHalfEven
              rw [if_neg (by linarith), if_pos he.symm,
                if_neg (show ¬⌊b⌋ % 2 = 0 by omega)]
            omega
          · have hB : roundHalfEven b = ⌊b⌋ + 1 := by
              unfold roundHalfEven
              rw [if_neg (by linarith), if_neg (by linarith)]
            omega
      · have ha3 : (1:ℚ)/2 < a - ⌊a⌋ := lt_of_le_of_ne (not_lt.mp ha1) (Ne.symm ha2)
        have hA : roundHalfEven a = ⌊a⌋ + 1 := by
          unfold roundHalfEven; rw [if_neg ha1, if_neg ha2]
        have hb3 : (1:ℚ)/2 < b - ⌊b⌋ := by rw [← hfc]; linarith
        have hB : roundHalfEven b = ⌊b⌋ + 1 := by
          unfold roundHalfEven
          rw [if_neg (by linarith), if_neg (by linarith)]
        omega

theorem roundTo_mono (k : ℕ) {a b : ℚ} (h : a ≤ b) : roundTo k a ≤ roundTo k b := by
  unfold roundTo
  have hp : (0:ℚ) < 10 ^ k := by positivity
  have h1 : a * 10 ^ k ≤ b * 10 ^ k := by
    exact mul_le_mul_of_nonneg_right h (le_of_lt hp)
  have h2 : ((roundHalfEven (a * 10 ^ k) : ℤ) : ℚ) ≤ ((roundHalfEven (b * 10 ^ k) : ℤ) : ℚ) := by
    exact_mod_cast roundHalfEven_mono h1
  exact div_le_div_of_nonneg_right h2 hp.le

theorem round3_mono {a b : ℚ} (h : a ≤ b) : round3 a ≤ round3 b := roundTo_mono 3 h

theorem effConf_le_weight {α : Type} (o : FieldObs α) : effConf o ≤ 17/20 :=
  le_trans (min_le_right _ _) (methodWeight_le o.method)

theorem one_sub_effConf_pos {α : Type} (o : FieldObs α) : 0 < 1 - effConf o := by
  have := effConf_le_weight o
  linarith

theorem foldl_prod_pos {α : Type} (os : List (FieldObs α)) :
    ∀ p : ℚ, 0 < p → 0 < os.foldl (fun p o => p * (1 - effConf o)) p := by
  induction os with
  | nil => intro p hp; simpa using hp
  | cons o os ih =>
    intro p hp
    simp only [List.foldl_cons]
    exact ih _ (mul_pos hp (one_sub_effConf_pos o))

theorem groupProduct_pos {α : Type} (os : List (FieldObs α)) : 0 < groupProduct os :=
  foldl_prod_pos os 1 one_pos

theorem groupProduct_append {α : Type} (os : List (FieldObs α)) (o : FieldObs α) :
    groupProduct (os ++ [o]) = groupProduct os * (1 - effConf o) := by
  simp [groupProduct, List.foldl_append]

theorem fuseGroup_conf {α : Type} (g : α × List (FieldObs α)) :
    (fuseGroup g).conf = min (98/100) (1 - groupProduct g.2) := rfl

/-- Joining one more observation to a value group never lowers its fused
confidence, provided the new effective confidence is nonnegative. -/
theorem fuseConf_append_le {α : Type} (os : List (FieldObs α)) (o : FieldObs α)
    (h : 0 ≤ effConf o) :
    min ((98:ℚ)/100) (1 - groupProduct os) ≤ min (98/100) (1 - groupProduct (os ++ [o])) := by
  rw [groupProduct_append]
  have hp := groupProduct_pos os
  have hpe : 0 ≤ groupProduct os * effConf o := mul_nonneg hp.le h
  have hexp : groupProduct os * (1 - effConf o)
      = groupProduct os - groupProduct os * effConf o := by ring
  exact min_le_min le_rfl (by linarith)

/-- Strict version: below the 0.98 cap, a strictly positive new effective
confidence strictly raises the fused group confidence. -/
theorem fuseConf_append_lt {α : Type} (os : List (FieldObs α)) (o : FieldObs α)
    (he : 0 < effConf o)
    (hcap : min ((98:ℚ)/100) (1 - groupProduct os) < 98/100) :
    min ((98:ℚ)/100) (1 - groupProduct os) < min (98/100) (1 - groupProduct (os ++ [o])) := by
  have hp := groupProduct_pos os
  have hmin : min ((98:ℚ)/100) (1 - groupProduct os) = 1 - groupProduct os := by
    rcases min_cases ((98:ℚ)/100) (1 - groupProduct os) with ⟨h1, h2⟩ | ⟨h1, h2⟩
    · exfalso; rw [h1] at hcap; exact lt_irrefl _ hcap
    · exact h1
  have hlt : groupProduct os * (1 - effConf o) < groupProduct os := by nlinarith
  rw [groupProduct_append, hmin]
  apply lt_min
  · rw [hmin] at hcap; exact hcap
  · linarith

theorem insertDesc_ne_nil {α : Type} (x : GroupConf α) (l : List (GroupConf α)) :
    insertDesc x l ≠ [] := by
  cases l with
  | nil => simp [insertDesc]
  | cons y ys =>
    unfold insertDesc
    split_ifs <;> simp

theorem headConf_insertDesc {α : Type} (x : GroupConf α) (l : List (GroupConf α))
    (h : l ≠ []) : headConf (insertDesc x l) = max x.conf (headConf l) := by
  cases l with
  | nil => exact absurd rfl h
  | cons y ys =>
    unfold insertDesc
    by_cases hxy : x.conf ≤ y.conf
    · rw [if_pos hxy]
      exact (max_eq_right hxy).symm
    · rw [if_neg hxy]
      exact (max_eq_left (le_of_not_le hxy)).symm

theorem headConf_foldl_insert {α : Type} (l : List (GroupConf α)) :
    ∀ acc : List (GroupConf α), acc ≠ [] →
      headConf (l.foldl (fun a g => insertDesc g a) acc)
        = l.foldl (fun m g => max m g.conf) (headConf acc) := by
  induction l with
  | nil => intro acc _; rfl
  | cons x xs ih =>
    intro acc hacc
    simp only [List.foldl_cons]
    rw [ih (insertDesc x acc) (insertDesc_ne_nil x acc),
      headConf_insertDesc x acc hacc, max_comm]

theorem headConf_sortDesc {α : Type} (g : GroupConf α) (gs : List (GroupConf α)) :
    headConf (sortDesc (g :: gs)) = gs.foldl (fun m x => max m x.conf) g.conf := by
  unfold sortDesc
  simp only [List.foldl_cons]
  have h1 : insertDesc g ([] : List (GroupConf α)) = [g] := rfl
  rw [h1, headConf_foldl_insert gs [g] (by simp)]
  rfl

theorem headConf_sortDesc_eq_maxConf {α : Type} (l : List (GroupConf α)) (h : l ≠ []) :
    headConf (sortDesc l) = maxConf l := by
  cases l with
  | nil => exact absurd rfl h
  | cons g gs => exact headConf_sortDesc g gs

theorem le_foldlMax_base {α : Type} (l : List (GroupConf α)) :
    ∀ b : ℚ, b ≤ l.foldl (fun m x => max m x.conf) b := by
  induction l with
  | nil => intro b; exact le_rfl
  | cons x xs ih =>
    intro b
    simp only [List.foldl_cons]
    exact le_trans (le_max_left _ _) (ih _)

theorem foldlMax_mono_base {α : Type} (l : List (GroupConf α)) :
    ∀ {b c : ℚ}, b ≤ c →
      l.foldl (fun m x => max m x.conf) b ≤ l.foldl (fun m x => max m x.conf) c := by
  induction l with
  | nil => intro b c h; exact h
  | cons x xs ih =>
    intro b c h
    simp only [List.foldl_cons]
    exact ih (max_le_max h le_rfl)

theorem mem_le_foldlMax {α : Type} {l : List (GroupConf α)} {x : GroupConf α}
    (hx : x ∈ l) : ∀ b : ℚ, x.conf ≤ l.foldl (fun m g => max m g.conf) b := by
  induction l with
  | nil => cases hx
  | cons y ys ih =>
    intro b
    simp only [List.foldl_cons]
    rcases List.mem_cons.mp hx with rfl | hmem
    · exact le_trans (le_max_right _ _) (le_foldlMax_base ys _)
    · exact ih hmem _

theorem mem_le_maxConf {α : Type} {l : List (GroupConf α)} {x : GroupConf α}
    (hx : x ∈ l) : x.conf ≤ maxConf l := by
  cases l with
  | nil => cases hx
  | cons g gs =>
    rcases List.mem_cons.mp hx with rfl | hmem
    · exact le_foldlMax_base gs _
    · exact mem_le_foldlMax hmem _

theorem foldlMax_le_of_forall₂ {α : Type} {l₁ l₂ : List (GroupConf α)}
    (h : List.Forall₂ (fun a b => a.conf ≤ b.conf) l₁ l₂) :
    ∀ {b₁ b₂ : ℚ}, b₁ ≤ b₂ →
      l₁.foldl (fun m x => max m x.conf) b₁ ≤ l₂.foldl (fun m x => max m x.conf) b₂ := by
  induction h with
  | nil => intro b₁ b₂ hb; exact hb
  | cons hab _ ih =>
    intro b₁ b₂ hb
    simp only [List.foldl_cons]
    exact ih (max_le_max hb hab)

theorem maxConf_le_of_forall₂ {α : Type} {l₁ l₂ : List (GroupConf α)}
    (h : List.Forall₂ (fun a b => a.conf ≤ b.conf) l₁ l₂) : maxConf l₁ ≤ maxConf l₂ := by
  cases h with
  | nil => exact le_rfl
  | cons hab htail => exact foldlMax_le_of_forall₂ htail hab

theorem mem_insertDesc {α : Type} {x y : GroupConf α} {l : List (GroupConf α)}
    (h : y ∈ insertDesc x l) : y = x ∨ y ∈ l := by
  induction l with
  | nil => simpa [insertDesc] using h
  | cons z zs ih =>
    unfold insertDesc at h
    split_ifs at h
    · rcases List.mem_cons.mp h with rfl | h2
      · exact Or.inr (List.mem_cons_self _ _)
      · rcases ih h2 with h3 | h3
        · exact Or.inl h3
        · exact Or.inr (List.mem_cons_of_mem _ h3)
    · rcases List.mem_cons.mp h with rfl | h2
      · exact Or.inl rfl
      · exact Or.inr h2

theorem mem_foldl_insert {α : Type} {y : GroupConf α} (l : List (GroupConf α)) :
    ∀ acc : List (GroupConf α),
      y ∈ l.foldl (fun a g => insertDesc g a) acc → y ∈ acc ∨ y ∈ l := by
  induction l with
  | nil => intro acc h; exact Or.inl h
  | cons x xs ih =>
    intro acc h
    simp only [List.foldl_cons] at h
    rcases ih (insertDesc x acc) h with h2 | h2
    · rcases mem_insertDesc h2 with rfl | h3
      · exact Or.inr (List.mem_cons_self _ _)
      · exact Or.inl h3
    · exact Or.inr (List.mem_cons_of_mem _ h2)

theorem mem_of_mem_sortDesc {α : Type} {y : GroupConf α} {l : List (GroupConf α)}
    (h : y ∈ sortDesc l) : y ∈ l := by
  rcases mem_foldl_insert l [] h with h2 | h2
  · cases h2
  · exact h2

theorem insertDesc_length {α : Type} (x : GroupConf α) (l : List (GroupConf α)) :
    (insertDesc x l).length = l.length + 1 := by
  induction l with
  | nil => rfl
  | cons y ys ih =>
    unfold insertDesc
    split_ifs <;> simp [ih]

theorem sortDesc_length {α : Type} (l : List (GroupConf α)) :
    (sortDesc l).length = l.length := by
  unfold sortDesc
  suffices h : ∀ acc : List (GroupConf α),
      (l.foldl (fun a g => insertDesc g a) acc).length = acc.length + l.length by
    simpa using h []
  induction l with
  | nil => intro acc; simp
  | cons x xs ih =>
    intro acc
    simp only [List.foldl_cons]
    rw [ih (insertDesc x acc), insertDesc_length]
    simp only [List.length_cons]
    omega

theorem valueGroups_append_single {α : Type} [DecidableEq α] (norm : α → α)
    (L : List (FieldObs α)) (o : FieldObs α) :
    valueGroups norm (L ++ [o]) = addToGroups (valueGroups norm L) (norm o.value) o := by
  unfold valueGroups
  rw [List.foldl_append]
  rfl

theorem addToGroups_ne_nil {α : Type} [DecidableEq α]
    (gs : List (α × List (FieldObs α))) (k : α) (o : FieldObs α) :
    addToGroups gs k o ≠ [] := by
  cases gs with
  | nil => simp [addToGroups]
  | cons p rest =>
    obtain ⟨k2, os⟩ := p
    unfold addToGroups
    split_ifs <;> simp

theorem valueGroups_ne_nil {α : Type} [DecidableEq α] (norm : α → α)
    {L : List (FieldObs α)} (h : L ≠ []) : valueGroups norm L ≠ [] := by
  cases L with
  | nil => exact absurd rfl h
  | cons o os =>
    unfold valueGroups
    simp only [List.foldl_cons]
    suffices haux : ∀ (l : List (FieldObs α)) (acc : List (α × List (FieldObs α))),
        acc ≠ [] → l.foldl (fun gs o => addToGroups gs (norm o.value) o) acc ≠ [] by
      exact haux os _ (addToGroups_ne_nil [] (norm o.value) o)
    intro l
    induction l with
    | nil => intro acc hacc; exact hacc
    | cons x xs ih =>
      intro acc hacc
      simp only [List.foldl_cons]
      exact ih _ (addToGroups_ne_nil acc (norm x.value) x)

theorem sortedGroups_ne_nil {α : Type} [DecidableEq α] (norm : α → α)
    {L : List (FieldObs α)} (h : L ≠ []) : sortedGroups norm L ≠ [] := by
  unfold sortedGroups
  intro hcon
  have h1 : (sortDesc ((valueGroups norm L).map fuseGroup)).length = 0 := by
    rw [hcon]; rfl
  rw [sortDesc_length, List.length_map] at h1
  exact valueGroups_ne_nil norm h (List.length_eq_zero.mp h1)

/-- Appending via `addToGroups` extends the first group carrying the key. -/
theorem addToGroups_first {α : Type} [DecidableEq α]
    (pre : List (α × List (FieldObs α))) (k : α) (os : List (FieldObs α))
    (post : List (α × List (FieldObs α))) (o : FieldObs α)
    (h : k ∉ pre.map Prod.fst) :
    addToGroups (pre ++ (k, os) :: post) k o = pre ++ (k, os ++ [o]) :: post := by
  induction pre with
  | nil => simp [addToGroups]
  | cons p ps ih =>
    obtain ⟨k2, os2⟩ := p
    have hk2 : k2 ≠ k := by
      intro hc
      exact h (by simp [hc])
    simp only [List.cons_append]
    unfold addToGroups
    rw [if_neg hk2, ih (by intro hc; exact h (List.mem_cons_of_mem _ hc))]

/-- First-occurrence decomposition of an association list at a present key. -/
theorem exists_first_occurrence {α β : Type} [DecidableEq α]
    {gs : List (α × β)} {k : α} (h : k ∈ gs.map Prod.fst) :
    ∃ pre os post, gs = pre ++ (k, os) :: post ∧ k ∉ pre.map Prod.fst := by
  induction gs with
  | nil => cases h
  | cons p rest ih =>
    obtain ⟨k2, os2⟩ := p
    by_cases hk : k2 = k
    · subst hk
      exact ⟨[], os2, rest, by simp, by simp⟩
    · have h2 : k ∈ rest.map Prod.fst := by
        rcases List.mem_cons.mp h with hc | hc
        · exact absurd hc.symm hk
        · exact hc
      obtain ⟨pre, os, post, heq, hpre⟩ := ih h2
      refine ⟨(k2, os2) :: pre, os, post, by rw [heq]; simp, ?_⟩
      intro hc
      rcases List.mem_cons.mp hc with hc2 | hc2
      · exact hk hc2.symm
      · exact hpre hc2

theorem addToGroups_map_fst {α : Type} [DecidableEq α]
    (gs : List (α × List (FieldObs α))) (k : α) (o : FieldObs α) :
    (addToGroups gs k o).map Prod.fst
      = if k ∈ gs.map Prod.fst then gs.map Prod.fst else gs.map Prod.fst ++ [k] := by
  induction gs with
  | nil => simp [addToGroups]
  | cons p rest ih =>
    obtain ⟨k2, os2⟩ := p
    by_cases hk : k2 = k
    · subst hk
      unfold addToGroups
      rw [if_pos rfl]
      simp
    · unfold addToGroups
      rw [if_neg hk]
      by_cases hmem : k ∈ rest.map Prod.fst
      · simp only [List.map_cons, ih, if_pos hmem]
        rw [if_pos (by simp [hmem])]
      · have hnot : k ∉ ((k2, os2) :: rest).map Prod.fst := by
          simp only [List.map_cons, List.mem_cons]
          rintro (hc | hc)
          · exact hk hc.symm
          · exact hmem hc
        simp only [List.map_cons, ih, if_neg hmem]
        rw [if_neg (by simpa using hnot)]
        simp

theorem nodup_keys_valueGroups {α : Type} [DecidableEq α] (norm : α → α)
    (L : List (FieldObs α)) : ((valueGroups norm L).map Prod.fst).Nodup := by
  unfold valueGroups
  suffices haux : ∀ (l : List (FieldObs α)) (acc : List (α × List (FieldObs α))),
      (acc.map Prod.fst).Nodup →
      ((l.foldl (fun gs o => addToGroups gs (norm o.value) o) acc).map Prod.fst).Nodup by
    exact haux L [] (by simp)
  intro l
  induction l with
  | nil => intro acc hacc; exact hacc
  | cons x xs ih =>
    intro acc hacc
    simp only [List.foldl_cons]
    apply ih
    rw [addToGroups_map_fst]
    split_ifs with hmem
    · exact hacc
    · rw [List.nodup_append]
      exact ⟨hacc, List.nodup_singleton _, by simpa using hmem⟩

/-- Every group in `value_groups` is nonempty and is keyed by the normalized
value of its first member (whose raw value is the group representative). -/
theorem valueGroups_head_key {α : Type} [DecidableEq α] (norm : α → α)
    (L : List (FieldObs α)) :
    ∀ g ∈ valueGroups norm L, ∃ o os, g.2 = o :: os ∧ norm o.value = g.1 := by
  unfold valueGroups
  suffices haux : ∀ (l : List (FieldObs α)) (acc : List (α × List (FieldObs α))),
      (∀ g ∈ acc, ∃ o os, g.2 = o :: os ∧ norm o.value = g.1) →
      ∀ g ∈ l.foldl (fun gs o => addToGroups gs (norm o.value) o) acc,
        ∃ o os, g.2 = o :: os ∧ norm o.value = g.1 by
    exact haux L [] (by simp)
  have hstep : ∀ (acc : List (α × List (FieldObs α))) (x : FieldObs α) (k : α),
      norm x.value = k →
      (∀ g ∈ acc, ∃ o os, g.2 = o :: os ∧ norm o.value = g.1) →
      ∀ g ∈ addToGroups acc k x, ∃ o os, g.2 = o :: os ∧ norm o.value = g.1 := by
    intro acc
    induction acc with
    | nil =>
      intro x k hk _ g hg
      simp only [addToGroups, List.mem_singleton] at hg
      subst hg
      exact ⟨x, [], rfl, hk⟩
    | cons p rest ih =>
      intro x k hk hinv g hg
      obtain ⟨k2, os2⟩ := p
      unfold addToGroups at hg
      split_ifs at hg with hkk
      · rcases List.mem_cons.mp hg with rfl | hg2
        · obtain ⟨o, os, heq, ho⟩ := hinv (k2, os2) (List.mem_cons_self _ _)
          simp only at heq
          exact ⟨o, os ++ [x], by simp [heq], ho⟩
        · exact hinv g (List.mem_cons_of_mem _ hg2)
      · rcases List.mem_cons.mp hg with rfl | hg2
        · exact hinv (k2, os2) (List.mem_cons_self _ _)
        · exact ih x k hk (fun g2 hg2m => hinv g2 (List.mem_cons_of_mem _ hg2m)) g hg2
  intro l
  induction l with
  | nil => intro acc hacc; exact hacc
  | cons x xs ih =>
    intro acc hacc
    simp only [List.foldl_cons]
    exact ih _ (hstep acc x (norm x.value) rfl hacc)

/-- Claim C1: for a field with exactly one observation of raw confidence `c`
and method `M`, the fused (pre-rounding) confidence is exactly
`min(c, METHOD_CONFIDENCE_WEIGHTS[M])` — never higher — and the stored
resolved confidence is that value as rounded to 3 decimals, the rounding the
source applies when it builds the `ResolvedField`. -/
theorem C1_single_observation_ceiling {α : Type} [DecidableEq α] (norm : α → α)
    (v : α) (c : ℚ) (s : String) (M : Method) :
    (resolveField norm [⟨v, c, s, M⟩]).confidence = round3 (min c (methodWeight M))
    ∧ bestFusedConf norm [⟨v, c, s, M⟩] = min c (methodWeight M) := by
  have hw : min c (methodWeight M) ≤ 98/100 :=
    le_trans (min_le_right _ _) (le_trans (methodWeight_le M) (by norm_num))
  constructor
  · simp [resolveField, sortedGroups, valueGroups, addToGroups, fuseGroup, sortDesc,
      insertDesc, groupProduct, groupSources, effConf, min_eq_right hw]
  · simp [bestFusedConf, sortedGroups, valueGroups, addToGroups, fuseGroup, sortDesc,
      insertDesc, groupProduct, groupSources, effConf, headConf, min_eq_right hw]

/-- Claim C2: with the fused value groups sorted (winner `g` first, non-winning
groups `gs` after it), `has_conflict` is true iff some non-winning group has
fused confidence `≥ 0.3` and `≥ 50%` of the winner's fused confidence, and
every non-winning group with fused confidence `≥ 0.3` is listed (with its
2-decimal rounding) in `competing_values`, irrespective of the 50% test. -/
theorem C2_conflict_detection {α : Type} [DecidableEq α] (norm : α → α)
    (obs : List (FieldObs α)) (g : GroupConf α) (gs : List (GroupConf α))
    (hs : sortedGroups norm obs = g :: gs) :
    ((resolveField norm obs).has_conflict = true ↔
      ∃ x ∈ gs, CONFLICT_THRESHOLD ≤ x.conf ∧ g.conf * (1/2) ≤ x.conf)
    ∧ ∀ x ∈ gs, CONFLICT_THRESHOLD ≤ x.conf →
        (x.value, round2 x.conf) ∈ (resolveField norm obs).competing_values := by
  have hres : resolveField norm obs =
      { value := some g.value
      , confidence := round3 g.conf
      , sources := g.sources
      , has_conflict := gs.any fun x =>
          decide (CONFLICT_THRESHOLD ≤ x.conf ∧ g.conf * (1/2) ≤ x.conf)
      , competing_values :=
          (gs.filter fun x => decide (CONFLICT_THRESHOLD ≤ x.conf)).map
            fun x => (x.value, round2 x.conf) } := by
    unfold resolveField
    rw [hs]
  rw [hres]
  constructor
  · simp [List.any_eq_true]
  · intro x hx hthr
    simp only
    exact List.mem_map.mpr ⟨x, List.mem_filter.mpr ⟨hx, by simpa using hthr⟩, rfl⟩

/-- Witness for C2 at a concrete two-group input: two disagreeing `manual`
observations of an integer field, each with raw confidence 0.8, flag a
conflict. -/
theorem C2_conflict_detection_witness :
    (resolveField (id : ℤ → ℤ)
      [⟨10, 4/5, "a", .manual⟩, ⟨20, 4/5, "b", .manual⟩]).has_conflict = true := by
  have h := C2_conflict_detection (id : ℤ → ℤ)
    [⟨10, 4/5, "a", .manual⟩, ⟨20, 4/5, "b", .manual⟩]
    ⟨10, 7/10, ["a"]⟩ [⟨20, 7/10, ["b"]⟩]
    (by norm_num [sortedGroups, valueGroups, addToGroups, fuseGroup, sortDesc,
      insertDesc, groupProduct, groupSources, effConf, methodWeight, min_def])
  exact h.1.mpr ⟨⟨20, 7/10, ["b"]⟩, by simp, by norm_num [CONFLICT_THRESHOLD]⟩

theorem resolveField_confidence_eq {α : Type} [DecidableEq α] (norm : α → α)
    {obs : List (FieldObs α)} (h : obs ≠ []) :
    (resolveField norm obs).confidence = round3 (bestFusedConf norm obs) := by
  cases h2 : sortedGroups norm obs with
  | nil => exact absurd h2 (sortedGroups_ne_nil norm h)
  | cons g gs =>
    unfold resolveField bestFusedConf
    rw [h2]
    rfl

/-- Claim C3 (amended): appending an observation of nonnegative raw confidence
whose normalized value agrees with the current winning value never decreases
the resolved (stored, 3-decimal) confidence; and the pre-rounding fused
confidence strictly increases whenever the new observation's effective
confidence `min(conf, weight)` is positive and the previous fused confidence
is still below the 0.98 cap. -/
theorem C3_agreeing_observation_monotonicity {α : Type} [DecidableEq α] (norm : α → α)
    (L : List (FieldObs α)) (o : FieldObs α) (wv : α)
    (hwin : (resolveField norm L).value = some wv)
    (hagree : norm o.value = norm wv)
    (hc : 0 ≤ o.conf) :
    (resolveField norm L).confidence ≤ (resolveField norm (L ++ [o])).confidence
    ∧ (0 < effConf o → bestFusedConf norm L < 98/100 →
        bestFusedConf norm L < bestFusedConf norm (L ++ [o])) := by
  have hL : L ≠ [] := by
    rintro rfl
    simp [resolveField, sortedGroups, valueGroups, sortDesc] at hwin
  obtain ⟨g, gs, hs⟩ : ∃ g gs, sortedGroups norm L = g :: gs := by
    cases h2 : sortedGroups norm L with
    | nil => exact absurd h2 (sortedGroups_ne_nil norm hL)
    | cons g gs => exact ⟨g, gs, rfl⟩
  have heff : 0 ≤ effConf o := le_min hc (methodWeight_pos o.method).le
  have hval : g.value = wv := by
    have hv : (resolveField norm L).value = some g.value := by
      unfold resolveField; rw [hs]
    rw [hv] at hwin
    exact Option.some_inj.mp hwin
  have hgmem : g ∈ (valueGroups norm L).map fuseGroup := by
    apply mem_of_mem_sortDesc (l := (valueGroups norm L).map fuseGroup)
    have hss : sortDesc ((valueGroups norm L).map fuseGroup) = g :: gs := hs
    rw [hss]
    exact List.mem_cons_self _ _
  obtain ⟨gp, hgp, hfuse⟩ := List.mem_map.mp hgmem
  obtain ⟨o1, os1, hgp2, ho1⟩ := valueGroups_head_key norm L gp hgp
  have hgval : (fuseGroup gp).value = o1.value := by
    unfold fuseGroup
    rw [hgp2]
  have ho1v : o1.value = wv := by
    rw [← hval, ← hfuse]
    exact hgval.symm
  have hkey : gp.1 = norm o.value := by
    rw [← ho1, ho1v, hagree]
  have hkeys : norm o.value ∈ (valueGroups norm L).map Prod.fst := by
    rw [← hkey]
    exact List.mem_map_of_mem Prod.fst hgp
  obtain ⟨pre, os, post, hdec, hpre⟩ := exists_first_occurrence hkeys
  have hnodup := nodup_keys_valueGroups norm L
  have hgp_eq : gp = (norm o.value, os) := by
    rw [hdec] at hgp hnodup
    rcases List.mem_append.mp hgp with hin | hin
    · exact absurd (hkey ▸ List.mem_map_of_mem Prod.fst hin) hpre
    · rcases List.mem_cons.mp hin with heq | hin2
      · exact heq
      · exfalso
        rw [List.map_append, List.map_cons] at hnodup
        have hk_notin : norm o.value ∉ post.map Prod.fst :=
          (List.nodup_cons.mp (List.nodup_append.mp hnodup).2.1).1
        exact hk_notin (hkey ▸ List.mem_map_of_mem Prod.fst hin2)
  have hnew : valueGroups norm (L ++ [o]) = pre ++ (norm o.value, os ++ [o]) :: post := by
    rw [valueGroups_append_single, hdec, addToGroups_first pre _ os post o hpre]
  have hmono : List.Forall₂ (fun a b => (a : GroupConf α).conf ≤ b.conf)
      ((valueGroups norm L).map fuseGroup)
      ((valueGroups norm (L ++ [o])).map fuseGroup) := by
    rw [hdec, hnew, List.map_append, List.map_append, List.map_cons, List.map_cons]
    apply List.rel_append
    · exact List.forall₂_same.mpr fun x _ => le_rfl
    · apply List.Forall₂.cons
      · rw [fuseGroup_conf, fuseGroup_conf]
        exact fuseConf_append_le os o heff
      · exact List.forall₂_same.mpr fun x _ => le_rfl
  have hfmax : maxConf ((valueGroups norm L).map fuseGroup)
      ≤ maxConf ((valueGroups norm (L ++ [o])).map fuseGroup) :=
    maxConf_le_of_forall₂ hmono
  have hFne : (valueGroups norm L).map fuseGroup ≠ [] := by
    rw [hdec]; simp
  have hF2ne : (valueGroups norm (L ++ [o])).map fuseGroup ≠ [] := by
    rw [hnew]; simp
  have hbestL : bestFusedConf norm L = maxConf ((valueGroups norm L).map fuseGroup) :=
    headConf_sortDesc_eq_maxConf _ hFne
  have hbestL2 : bestFusedConf norm (L ++ [o])
      = maxConf ((valueGroups norm (L ++ [o])).map fuseGroup) :=
    headConf_sortDesc_eq_maxConf _ hF2ne
  constructor
  · rw [resolveField_confidence_eq norm hL,
      resolveField_confidence_eq norm (show L ++ [o] ≠ [] by simp)]
    apply round3_mono
    rw [hbestL, hbestL2]
    exact hfmax
  · intro he hcap
    rw [hbestL, hbestL2]
    rw [hbestL] at hcap
    have hgconf : g.conf = maxConf ((valueGroups norm L).map fuseGroup) := by
      have h1 : headConf (sortedGroups norm L)
          = maxConf ((valueGroups norm L).map fuseGroup) :=
        headConf_sortDesc_eq_maxConf _ hFne
      rw [hs] at h1
      exact h1
    have hgc2 : min ((98:ℚ)/100) (1 - groupProduct os)
        = maxConf ((valueGroups norm L).map fuseGroup) := by
      have h2 : (fuseGroup (norm o.value, os)).conf = g.conf := by
        rw [← hgp_eq, hfuse]
      rw [← hgconf, ← h2, fuseGroup_conf]
    have hlt : min ((98:ℚ)/100) (1 - groupProduct os)
        < min (98/100) (1 - groupProduct (os ++ [o])) := by
      apply fuseConf_append_lt os o he
      rw [hgc2]
      exact hcap
    have hmem2 : fuseGroup (norm o.value, os ++ [o])
        ∈ (valueGroups norm (L ++ [o])).map fuseGroup := by
      rw [hnew]
      exact List.mem_map_of_mem fuseGroup (by simp)
    have hle2 := mem_le_maxConf hmem2
    rw [fuseGroup_conf] at hle2
    calc maxConf ((valueGroups norm L).map fuseGroup)
        = min ((98:ℚ)/100) (1 - groupProduct os) := hgc2.symm
      _ < min (98/100) (1 - groupProduct (os ++ [o])) := hlt
      _ ≤ maxConf ((valueGroups norm (L ++ [o])).map fuseGroup) := hle2

/-- Witness for C3 at a concrete input: a second agreeing `manual` observation
of confidence 0.5 on an integer field, below the cap, strictly raises the
fused confidence and weakly raises the stored one. -/
theorem C3_agreeing_observation_monotonicity_witness :
    (resolveField (id : ℤ → ℤ) [⟨10, 1/2, "a", .manual⟩]).confidence
      ≤ (resolveField (id : ℤ → ℤ)
          ([⟨10, 1/2, "a", .manual⟩] ++ [⟨10, 1/2, "b", .manual⟩])).confidence
    ∧ bestFusedConf (id : ℤ → ℤ) [⟨10, 1/2, "a", .manual⟩]
        < bestFusedConf (id : ℤ → ℤ)
            ([⟨10, 1/2, "a", .manual⟩] ++ [⟨10, 1/2, "b", .manual⟩]) := by
  have h := C3_agreeing_observation_monotonicity (id : ℤ → ℤ)
    [⟨10, 1/2, "a", .manual⟩] ⟨10, 1/2, "b", .manual⟩ 10
    (by norm_num [resolveField, sortedGroups, valueGroups, addToGroups, fuseGroup,
      sortDesc, insertDesc, groupProduct, groupSources, effConf, methodWeight, min_def])
    rfl
    (by norm_num)
  refine ⟨h.1, h.2 ?_ ?_⟩
  · norm_num [effConf, methodWeight]
  · norm_num [bestFusedConf, sortedGroups, valueGroups, addToGroups, fuseGroup,
      sortDesc, insertDesc, groupProduct, groupSources, effConf, methodWeight,
      min_def, headConf]

/-- Counterexample to C3 as stated: with three agreeing AI-vision observations
the winning group is already at the 0.98 cap, so a fourth agreeing observation
with effective confidence 0.85 > 0 leaves the resolved confidence unchanged —
the strict-increase clause of the claim fails. -/
theorem C3_strict_increase_counterexample :
    0 < effConf (⟨10, 17/20, "d", .ai_vision⟩ : FieldObs ℤ)
    ∧ (resolveField (id : ℤ → ℤ)
        [⟨10, 17/20, "a", .ai_vision⟩, ⟨10, 17/20, "b", .ai_vision⟩,
          ⟨10, 17/20, "c", .ai_vision⟩]).value = some 10
    ∧ (resolveField (id : ℤ → ℤ)
        ([⟨10, 17/20, "a", .ai_vision⟩, ⟨10, 17/20, "b", .ai_vision⟩,
          ⟨10, 17/20, "c", .ai_vision⟩] ++ [⟨10, 17/20, "d", .ai_vision⟩])).confidence
      = (resolveField (id : ℤ → ℤ)
          [⟨10, 17/20, "a", .ai_vision⟩, ⟨10, 17/20, "b", .ai_vision⟩,
            ⟨10, 17/20, "c", .ai_vision⟩]).confidence := by
  refine ⟨by norm_num [effConf, methodWeight], ?_, ?_⟩ <;>
    norm_num [resolveField, sortedGroups, valueGroups, addToGroups, fuseGroup, sortDesc,
      insertDesc, groupProduct, groupSources, effConf, methodWeight, min_def,
      round3, roundTo, roundHalfEven]

/-- Claim C4: after `add_observation(task, c, …)` the next
`get_resolved_circuit(task, c)` resolves from all stored observations
including the new one (the invalidated cache entry cannot be served stale),
while for any other circuit `c2 ≠ c` of the same task both the cached entry
and the `get_resolved_circuit` result are unchanged. -/
theorem C4_cache_invalidation_consistency (s : AggState) (task_id : String)
    (c c2 : ℤ) (source_id : String) (method : Method)
    (description : Option String) (dc : ℚ) (amps : Option ℤ) (ac : ℚ)
    (poles : Option ℤ) (pc : ℚ) (la : Option ℚ) (lc : ℚ)
    (lty : Option String) (ltc : ℚ) (hne : c2 ≠ c) :
    ((getResolvedCircuit (addObservation s task_id c source_id method description dc
        amps ac poles pc la lc lty ltc) task_id c).1
      = some (resolveCircuit c (s.obs task_id c
          ++ [⟨c, source_id, method, description, dc, amps, ac, poles, pc, la, lc,
                lty, ltc⟩])))
    ∧ ((addObservation s task_id c source_id method description dc amps ac poles pc
        la lc lty ltc).cache task_id c2 = s.cache task_id c2)
    ∧ ((getResolvedCircuit (addObservation s task_id c source_id method description dc
        amps ac poles pc la lc lty ltc) task_id c2).1
      = (getResolvedCircuit s task_id c2).1) := by
  have hobs2 : (addObservation s task_id c source_id method description dc amps ac poles pc
      la lc lty ltc).obs task_id c2 = s.obs task_id c2 := by
    simp [addObservation, hne]
  have hcache2 : (addObservation s task_id c source_id method description dc amps ac poles pc
      la lc lty ltc).cache task_id c2 = s.cache task_id c2 := by
    simp [addObservation, hne]
  refine ⟨?_, hcache2, ?_⟩
  · simp [getResolvedCircuit, addObservation]
  · unfold getResolvedCircuit
    rw [hobs2, hcache2]
    by_cases hemp : (s.obs task_id c2).isEmpty = true
    · rw [if_pos hemp, if_pos hemp]
    · rw [if_neg hemp, if_neg hemp]
      cases s.cache task_id c2 <;> rfl

/-- Witness for C4 at a concrete input: fresh service, one observation added
for circuit 1 of task "t", checked against circuit 2. -/
theorem C4_cache_invalidation_consistency_witness :
    ((getResolvedCircuit (addObservation emptyAggState "t" 1 "photo1" .manual none (4/5)
        (some 20) (4/5) none (4/5) none (4/5) none (4/5)) "t" 1).1
      = some (resolveCircuit 1 (emptyAggState.obs "t" 1
          ++ [⟨1, "photo1", .manual, none, 4/5, some 20, 4/5, none, 4/5, none, 4/5,
                none, 4/5⟩])))
    ∧ ((addObservation emptyAggState "t" 1 "photo1" .manual none (4/5) (some 20) (4/5)
        none (4/5) none (4/5) none (4/5)).cache "t" 2 = emptyAggState.cache "t" 2)
    ∧ ((getResolvedCircuit (addObservation emptyAggState "t" 1 "photo1" .manual none (4/5)
        (some 20) (4/5) none (4/5) none (4/5) none (4/5)) "t" 2).1
      = (getResolvedCircuit emptyAggState "t" 2).1) :=
  C4_cache_invalidation_consistency emptyAggState "t" 1 2 "photo1" .manual none (4/5)
    (some 20) (4/5) none (4/5) none (4/5) none (4/5) (by norm_num)

/-- Claim C5 evaluation at the failing input: `add_observation` with
`circuit_num = 0` raises nothing and appends the observation to the store —
the store performs no circuit-number validation at all (there is no
`InvalidCircuitNumber` anywhere in the code; non-positive numbers are only
skipped by the bulk-ingestion caller). -/
theorem C5_store_accepts_nonpositive_circuit :
    (addObservation emptyAggState "t" 0 "src" .manual none (4/5) (some 20) (4/5)
        none (4/5) none (4/5) none (4/5)).obs "t" 0
      = [⟨0, "src", .manual, none, 4/5, some 20, 4/5, none, 4/5, none, 4/5, none, 4/5⟩] := by
  simp [addObservation, emptyAggState]

/-- Claim C8 (amended): `needs_review` is true iff one of the four fields
description, breaker_amps, poles, load_type has a conflict — the source omits
`load_amps` from the `any` list, so a load_amps conflict alone does not set
`needs_review`. -/
theorem C8_needs_review_iff_four_field_conflict (circuit_num : ℤ)
    (observations : List CircuitObservation) :
    (resolveCircuit circuit_num observations).needs_review = true ↔
      ((resolveCircuit circuit_num observations).description.has_conflict = true
        ∨ (resolveCircuit circuit_num observations).breaker_amps.has_conflict = true
        ∨ (resolveCircuit circuit_num observations).poles.has_conflict = true
        ∨ (resolveCircuit circuit_num observations).load_type.has_conflict = true) := by
  simp only [resolveCircuit, Bool.or_eq_true, or_assoc]

/-- Counterexample to C8 as stated: two observations disagreeing only on
`load_amps` (10 vs 20, manual, confidence 0.8 each) make
`load_amps.has_conflict` true while `needs_review` stays false. -/
theorem C8_load_amps_conflict_counterexample :
    ((resolveCircuit 1
      [⟨1, "a", .manual, none, 0, none, 0, none, 0, some 10, 4/5, none, 0⟩,
        ⟨1, "b", .manual, none, 0, none, 0, none, 0, some 20, 4/5, none, 0⟩]).load_amps.has_conflict
      = true)
    ∧ ((resolveCircuit 1
      [⟨1, "a", .manual, none, 0, none, 0, none, 0, some 10, 4/5, none, 0⟩,
        ⟨1, "b", .manual, none, 0, none, 0, none, 0, some 20, 4/5, none, 0⟩]).needs_review
      = false) := by
  constructor <;>
    norm_num [resolveCircuit, resolveField, sortedGroups, valueGroups, addToGroups,
      fuseGroup, sortDesc, insertDesc, groupProduct, groupSources, effConf, methodWeight,
      min_def, CONFLICT_THRESHOLD, List.filterMap]

/-- Claim C9: `to_dict` substitutes fixed defaults for unresolved (`None`)
field values — poles 1, breaker_amps 0, load_amps 0, description and
load_type the empty string — and reports the circuit number as its decimal
string. -/
theorem C9_to_dict_defaults (r : ResolvedCircuit) :
    (r.description.value = none → r.to_dict.description = "")
    ∧ (r.breaker_amps.value = none → r.to_dict.breaker_amps = 0)
    ∧ (r.poles.value = none → r.to_dict.poles = 1)
    ∧ (r.load_amps.value = none → r.to_dict.load_amps = 0)
    ∧ (r.load_type.value = none → r.to_dict.load_type = "")
    ∧ r.to_dict.number = toString r.circuit_num := by
  refine ⟨?_, ?_, ?_, ?_, ?_, rfl⟩ <;>
    intro h <;>
    simp [ResolvedCircuit.to_dict, pyOrStr, pyOrInt, pyOrRat, h]

/-- Witness for C9 at a concrete circuit whose five fields are all
unresolved. -/
theorem C9_to_dict_defaults_witness :
    ((⟨7, ⟨none, 0, [], false, []⟩, ⟨none, 0, [], false, []⟩, ⟨none, 0, [], false, []⟩,
        ⟨none, 0, [], false, []⟩, ⟨none, 0, [], false, []⟩, 0, false⟩ :
        ResolvedCircuit).to_dict.description = "")
    ∧ ((⟨7, ⟨none, 0, [], false, []⟩, ⟨none, 0, [], false, []⟩, ⟨none, 0, [], false, []⟩,
        ⟨none, 0, [], false, []⟩, ⟨none, 0, [], false, []⟩, 0, false⟩ :
        ResolvedCircuit).to_dict.breaker_amps = 0)
    ∧ ((⟨7, ⟨none, 0, [], false, []⟩, ⟨none, 0, [], false, []⟩, ⟨none, 0, [], false, []⟩,
        ⟨none, 0, [], false, []⟩, ⟨none, 0, [], false, []⟩, 0, false⟩ :
        ResolvedCircuit).to_dict.poles = 1)
    ∧ ((⟨7, ⟨none, 0, [], false, []⟩, ⟨none, 0, [], false, []⟩, ⟨none, 0, [], false, []⟩,
        ⟨none, 0, [], false, []⟩, ⟨none, 0, [], false, []⟩, 0, false⟩ :
        ResolvedCircuit).to_dict.load_amps = 0)
    ∧ ((⟨7, ⟨none, 0, [], false, []⟩, ⟨none, 0, [], false, []⟩, ⟨none, 0, [], false, []⟩,
        ⟨none, 0, [], false, []⟩, ⟨none, 0, [], false, []⟩, 0, false⟩ :
        ResolvedCircuit).to_dict.load_type = "")
    ∧ ((⟨7, ⟨none, 0, [], false, []⟩, ⟨none, 0, [], false, []⟩, ⟨none, 0, [], false, []⟩,
        ⟨none, 0, [], false, []⟩, ⟨none, 0, [], false, []⟩, 0, false⟩ :
        ResolvedCircuit).to_dict.number = toString (7 : ℤ)) := by
  have h := C9_to_dict_defaults
    ⟨7, ⟨none, 0, [], false, []⟩, ⟨none, 0, [], false, []⟩, ⟨none, 0, [], false, []⟩,
      ⟨none, 0, [], false, []⟩, ⟨none, 0, [], false, []⟩, 0, false⟩
  exact ⟨h.1 rfl, h.2.1 rfl, h.2.2.1 rfl, h.2.2.2.1 rfl, h.2.2.2.2.1 rfl, h.2.2.2.2.2⟩

/-- Claim C7: a non-empty update is accepted (stored value replaced, `True`
returned) exactly when nothing is stored or the new effective confidence
`min(1, confidence * weight)` strictly exceeds the stored effective
confidence; on an exact tie the update is rejected and the stored value is
untouched. -/
theorem C7_update_parameter_strict_improvement (s : ParamState)
    (task_id param_name : String) (value : PyVal) (confidence : ℚ)
    (method : Method) (source_id : String)
    (hne : isEmptyValue value = false) :
    ((update_parameter s task_id param_name value confidence method source_id).1.1 = true
      ↔ s.store task_id param_name = none
        ∨ ∃ ex, s.store task_id param_name = some ex
            ∧ ex.effective_confidence < min 1 (confidence * methodWeight method))
    ∧ ((update_parameter s task_id param_name value confidence method source_id).1.1 = true →
        (update_parameter s task_id param_name value confidence method source_id).2.store
            task_id param_name
          = some ⟨value, confidence, method, source_id⟩)
    ∧ (∀ ex, s.store task_id param_name = some ex →
        ex.effective_confidence = min 1 (confidence * methodWeight method) →
        (update_parameter s task_id param_name value confidence method source_id).1.1 = false
        ∧ (update_parameter s task_id param_name value confidence method source_id).2.store
            task_id param_name = some ex) := by
  refine ⟨?_, ?_, ?_⟩
  · cases hst : s.store task_id param_name with
    | none => simp [update_parameter, hne, hst]
    | some ex =>
      by_cases hlt : ex.effective_confidence < min 1 (confidence * methodWeight method)
      · have h2 := lt_min_iff.mp hlt
        simp [update_parameter, hne, hst, hlt, h2.1, h2.2]
      · simp only [update_parameter, hne, hst, hlt]
        simp [hlt]
        intro h1
        rcases min_le_iff.mp (not_lt.mp hlt) with h | h
        · linarith
        · exact h
  · cases hst : s.store task_id param_name with
    | none => simp [update_parameter, hne, hst]
    | some ex =>
      by_cases hlt : ex.effective_confidence < min 1 (confidence * methodWeight method)
      · simp [update_parameter, hne, hst, hlt]
      · simp [update_parameter, hne, hst, hlt]
  · intro ex2 hex2 heq
    have hnlt : ¬ ex2.effective_confidence < min 1 (confidence * methodWeight method) := by
      rw [heq]
      exact lt_irrefl _
    constructor <;> simp [update_parameter, hne, hex2, hnlt]

/-- Witness for C7 at a concrete tie: stored voltage 480 with manual
confidence 1 (effective 0.7), updated with a different manual value at the
same effective confidence — the update is rejected and the incumbent kept. -/
theorem C7_update_parameter_strict_improvement_witness :
    (update_parameter
        ⟨fun t p => if t = "t" ∧ p = "voltage"
          then some ⟨.int 480, 1, .manual, "m"⟩ else none⟩
        "t" "voltage" (.int 481) 1 .manual "m2").1.1 = false
    ∧ (update_parameter
        ⟨fun t p => if t = "t" ∧ p = "voltage"
          then some ⟨.int 480, 1, .manual, "m"⟩ else none⟩
        "t" "voltage" (.int 481) 1 .manual "m2").2.store "t" "voltage"
      = some ⟨.int 480, 1, .manual, "m"⟩ :=
  (C7_update_parameter_strict_improvement
      ⟨fun t p => if t = "t" ∧ p = "voltage"
        then some ⟨.int 480, 1, .manual, "m"⟩ else none⟩
      "t" "voltage" (.int 481) 1 .manual "m2" rfl).2.2
    ⟨.int 480, 1, .manual, "m"⟩ (by simp)
    (by norm_num [ParameterValue.effective_confidence, methodWeight])

theorem getResolvedCircuit_obs (s : AggState) (t : String) (c : ℤ) :
    ((getResolvedCircuit s t c).2).obs = s.obs := by
  unfold getResolvedCircuit
  by_cases hemp : (s.obs t c).isEmpty = true
  · rw [if_pos hemp]
  · rw [if_neg hemp]
    cases s.cache t c <;> rfl

/-- Ingesting one usable entry with positive parsed circuit number succeeds
and appends exactly one observation, carrying the coerced field values, the
entry confidence (default 0.8) on the description, 0.8 on amps and load_type,
and 0.9/0.7 on poles depending on the visual-pole-detection flag. -/
theorem processOcrEntry_appends (task_id source_id : String) (method : Method)
    (s : AggState) (notifs : List String) (e : OcrEntry) (n : ℤ)
    (hn : parseInt (e.number.getD (.int 0)) = some n) (hpos : 0 < n)
    (husable : ¬(coerceDesc e = none ∧ coerceAmps e = none ∧ coercePoles e = none
        ∧ coerceLoadType e = none)) :
    ∃ st notifs2,
      processOcrEntry task_id source_id method (s, notifs) e = .ok (st, notifs2)
      ∧ st.obs = fun t c =>
          if t = task_id ∧ c = n then
            s.obs t c ++ [⟨n, source_id,
              (if e.visual_pole_detection then Method.ai_vision else method),
              coerceDesc e, e.confidence.getD (4/5), coerceAmps e, 4/5, coercePoles e,
              (if e.visual_pole_detection then (9:ℚ)/10 else 7/10), none, 4/5,
              coerceLoadType e, 4/5⟩]
          else s.obs t c := by
  have hle : ¬ (n ≤ 0) := not_le.mpr hpos
  simp only [processOcrEntry, hn]
  rw [if_neg hle, if_neg husable]
  refine ⟨_, _, rfl, ?_⟩
  rw [getResolvedCircuit_obs]
  show (fun t c =>
      if t = task_id ∧ c = n then
        ((getResolvedCircuit s task_id n).2).obs t c ++ [_]
      else ((getResolvedCircuit s task_id n).2).obs t c) = _
  simp only [getResolvedCircuit_obs]

/-- Single-entry corollary at the public API: ingesting `[e]` with no visual
breakers succeeds and appends exactly the observation described in
`processOcrEntry_appends`. -/
theorem ingest_single_entry (s : AggState) (task_id source_id : String)
    (method : Method) (e : OcrEntry) (n : ℤ)
    (hn : parseInt (e.number.getD (.int 0)) = some n) (hpos : 0 < n)
    (husable : ¬(coerceDesc e = none ∧ coerceAmps e = none ∧ coercePoles e = none
        ∧ coerceLoadType e = none)) :
    ∃ s2 notifs,
      addObservationsFromOcrResult s task_id source_id [e] method none = .ok (s2, notifs)
      ∧ s2.obs task_id n = s.obs task_id n
          ++ [⟨n, source_id, (if e.visual_pole_detection then Method.ai_vision else method),
              coerceDesc e, e.confidence.getD (4/5), coerceAmps e, 4/5, coercePoles e,
              (if e.visual_pole_detection then (9:ℚ)/10 else 7/10), none, 4/5,
              coerceLoadType e, 4/5⟩] := by
  obtain ⟨st, notifs2, hrun, hobs⟩ :=
    processOcrEntry_appends task_id source_id method s [] e n hn hpos husable
  refine ⟨st, notifs2, ?_, ?_⟩
  · unfold addObservationsFromOcrResult
    have hfold : List.foldlM (processOcrEntry task_id source_id method)
        (s, ([] : List String)) [e]
        = processOcrEntry task_id source_id method (s, []) e := by
      simp [List.foldlM]
    rw [hfold, hrun]
    rfl
  · rw [hobs]
    simp

/-- Claim C10: per ingested circuit entry, the supplied entry confidence
(default 0.8) is applied only to the description observation; amps and
load_type always get 0.8, poles gets 0.9 with the visual-pole-detection flag
and 0.7 without, and the flag also upgrades the method to AI vision. -/
theorem C10_ingestion_confidence_assignment (s : AggState) (task_id source_id : String)
    (method : Method) (e : OcrEntry) (n : ℤ)
    (hn : parseInt (e.number.getD (.int 0)) = some n) (hpos : 0 < n)
    (husable : ¬(coerceDesc e = none ∧ coerceAmps e = none ∧ coercePoles e = none
        ∧ coerceLoadType e = none)) :
    ∃ s2 notifs,
      addObservationsFromOcrResult s task_id source_id [e] method none = .ok (s2, notifs)
      ∧ s2.obs task_id n = s.obs task_id n
          ++ [⟨n, source_id, (if e.visual_pole_detection then Method.ai_vision else method),
              coerceDesc e, e.confidence.getD (4/5), coerceAmps e, 4/5, coercePoles e,
              (if e.visual_pole_detection then (9:ℚ)/10 else 7/10), none, 4/5,
              coerceLoadType e, 4/5⟩] :=
  ingest_single_entry s task_id source_id method e n hn hpos husable

/-- Witness for C10: an entry with supplied confidence 0.5 and no
visual-pole flag yields a text-OCR observation with description confidence
0.5, amps confidence 0.8 and poles confidence 0.7. -/
theorem C10_ingestion_confidence_assignment_witness :
    ingestObsAt (addObservationsFromOcrResult emptyAggState "t" "src"
        [⟨some (.str "7"), some "LIGHTS", some (.int 20), some (.int 2), none,
          some (1/2), false⟩] .text_ocr none) "t" 7
      = some [⟨7, "src", .text_ocr, some "LIGHTS", 1/2, some 20, 4/5, some 2,
          7/10, none, 4/5, none, 4/5⟩] := by
  obtain ⟨s2, notifs, h1, h2⟩ := C10_ingestion_confidence_assignment emptyAggState "t" "src"
    .text_ocr
    ⟨some (.str "7"), some "LIGHTS", some (.int 20), some (.int 2), none, some (1/2), false⟩
    7 (by decide) (by decide) (by decide)
  rw [h1]
  show some _ = some _
  rw [h2]
  rfl

/-- Claim C6 evaluation: a malformed string in `breaker_amps` is recovered
(field absent, ingestion continues), but a malformed `number` string hits the
unguarded `int(circuit.get('number', 0))` and aborts the whole batch — the
second, well-formed circuit of the batch is never ingested. -/
theorem C6_malformed_number_aborts_batch :
    addObservationsFromOcrResult emptyAggState "t" "src"
      [⟨some (.str "abc"), none, some (.int 20), none, none, none, false⟩,
        ⟨some (.int 2), none, some (.int 30), none, none, none, false⟩] .text_ocr none
      = .error ()
    ∧ ∃ st notifs,
        addObservationsFromOcrResult emptyAggState "t" "src"
          [⟨some (.int 3), none, some (.str "x20"), some (.int 2), none, none, false⟩]
          .text_ocr none = .ok (st, notifs)
        ∧ st.obs "t" 3 = [⟨3, "src", .text_ocr, none, 4/5, none, 4/5, some 2, 7/10,
            none, 4/5, none, 4/5⟩] := by
  constructor
  · rfl
  · obtain ⟨st, notifs, h1, h2⟩ := ingest_single_entry emptyAggState "t" "src" .text_ocr
      ⟨some (.int 3), none, some (.str "x20"), some (.int 2), none, none, false⟩
      3 (by decide) (by decide) (by decide)
    refine ⟨st, notifs, h1, ?_⟩
    rw [h2]
    rfl

end CircuitAgg
